import Mathlib

/-!
Verification of the response-parsing and daily-aggregation core of the
CalAI food-tracking server (src/app.py) against its specification.

The embedding models:
  - JSON values (the shape produced by json.loads) as the mutual
    inductive `Json` / `JsonElems` / `JsonFields`, with numbers as ℚ;
  - the fence-stripping extractor of analyze_food lines 90-96 and
    reanalyze_food lines 156-162 (`stripFence`, `extract`);
  - json.loads itself as the fuel-based recursive-descent `parseJson`
    (an external standard-library collaborator of the source);
  - the metadata attachment of lines 96-99 (`normalize`);
  - the in-memory store `calorie_data` with the handlers save_meal
    (lines 172-194), get_daily_data (lines 196-206) and get_all_dates
    (lines 208-211).

Python dictionaries are modelled as insertion-ordered association lists
with unique keys (assignment replaces the value in place, a new key is
appended at the end), and Python string ordering as lexicographic
comparison of code points.
-/

attribute [local semireducible] Rat.add Rat.mul Rat.inv Rat.sub

mutual
/-- JSON values as produced by json.loads: null, booleans, numbers
(modelled as ℚ, covering ints and floats), strings, arrays, objects.
Mutual with its own element and field lists so that decidable equality
derives. -/
inductive Json where
  | null
  | bool (b : Bool)
  | num (q : ℚ)
  | str (s : String)
  | arr (elems : JsonElems)
  | obj (kvs : JsonFields)
  deriving DecidableEq
inductive JsonElems where
  | nil
  | cons (hd : Json) (tl : JsonElems)
  deriving DecidableEq
inductive JsonFields where
  | nil
  | cons (key : String) (val : Json) (tl : JsonFields)
  deriving DecidableEq
end

/-- Lookup of a key in an object field list, first match (keys are unique
by construction, mirroring a Python dict). Models `d[k]` / `d.get(k)`. -/
def JsonFields.get : JsonFields → String → Option Json
  | .nil, _ => none
  | .cons k v tl, key => if k = key then some v else tl.get key

/-- Assignment `d[k] = v` on a Python dict: replaces the value at an
existing key keeping its position, otherwise appends the pair at the
end (insertion order). -/
def JsonFields.set : JsonFields → String → Json → JsonFields
  | .nil, key, v => .cons key v .nil
  | .cons k w tl, key, v =>
    if k = key then .cons key v tl else .cons k w (tl.set key v)

/-- Models `data.get(key)` on a parsed JSON value: a field lookup when the
value is an object, nothing otherwise. -/
def Json.get : Json → String → Option Json
  | .obj kvs, key => kvs.get key
  | _, _ => none

/-- The numeric reading Python applies to a value used as an operand of
`+=` on a running numeric total: ints and floats are numbers, bools
coerce (True = 1, False = 0), and every other type raises TypeError
(modelled as `none`). -/
def pyNum : Json → Option ℚ
  | .num q => some q
  | .bool b => some (if b then 1 else 0)
  | _ => none

/-- Models `data.get(key, 0)` followed by use as a `+=` operand in
save_meal lines 188-192: an absent key contributes the default 0, a
present key must be numeric (else TypeError, modelled as `none`). -/
def Json.getNum (j : Json) (key : String) : Option ℚ :=
  match j.get key with
  | none => some 0
  | some v => pyNum v

/-- Error taxonomy of the specification, mapped onto the exceptions the
source can raise: `malformedResponse` is json.JSONDecodeError from
json.loads (line 96), `typeError` is TypeError from item assignment on a
non-dict or a non-numeric `+=` operand, `analysisFailed` is any error of
the external model call (caught at line 103), and `shapeMismatch` is the
validation failure the specification names — the source contains no code
path that raises it. -/
inductive PyErr where
  | malformedResponse
  | typeError
  | analysisFailed
  | shapeMismatch
  deriving DecidableEq

/-- Decidable equality of fallible results, so that concrete handler
outcomes evaluate. -/
instance instDecEqExcept {ε α : Type} [DecidableEq ε] [DecidableEq α] :
    DecidableEq (Except ε α) := fun a b =>
  match a, b with
  | .error x, .error y =>
    if h : x = y then .isTrue (by rw [h])
    else .isFalse (fun hc => h (Except.error.inj hc))
  | .ok x, .ok y =>
    if h : x = y then .isTrue (by rw [h])
    else .isFalse (fun hc => h (Except.ok.inj hc))
  | .error _, .ok _ => .isFalse (fun hc => Except.noConfusion hc)
  | .ok _, .error _ => .isFalse (fun hc => Except.noConfusion hc)

/-- Whitespace characters removed by the Python str.strip() calls of
lines 90 and 96 (the ASCII whitespace relevant to model responses). -/
def pyWs (c : Char) : Bool :=
  c = ' ' || c = '\t' || c = '\n' || c = '\r' || c = '\x0b' || c = '\x0c'

/-- Left strip: drop leading whitespace, as in str.strip(). -/
def lstrip (s : List Char) : List Char := s.dropWhile pyWs

/-- Right strip: drop trailing whitespace, as in str.strip(). -/
def rstrip (s : List Char) : List Char := (s.reverse.dropWhile pyWs).reverse

/-- Models Python str.strip(): remove leading and trailing whitespace. -/
def pyStrip (s : List Char) : List Char := rstrip (lstrip s)

/-- The 7-character opening fence marker tested by
`response_text.startswith('```json')` at line 91. -/
def fenceOpen : List Char := "```json".toList

/-- The 3-character closing fence marker tested by
`response_text.endswith('```')` at line 93. -/
def fenceClose : List Char := "```".toList

/-- Models str.startswith: the first `p.length` characters equal `p`. -/
def beginsWith (p s : List Char) : Bool := decide (s.take p.length = p)

/-- Models str.endswith: the last `p.length` characters equal `p`. -/
def finishesWith (p s : List Char) : Bool :=
  decide (s.drop (s.length - p.length) = p)

/-- The fence-stripping of analyze_food lines 90-96 (duplicated verbatim
in reanalyze_food lines 156-162): strip, drop a leading 7-character
markdown fence opener if present, drop a trailing 3-character fence
closer if present, strip again. -/
def stripFence (raw : List Char) : List Char :=
  let t1 := pyStrip raw
  let t2 := if beginsWith fenceOpen t1 then t1.drop 7 else t1
  let t3 := if finishesWith fenceClose t2 then t2.take (t2.length - 3) else t2
  pyStrip t3

/-- Whitespace skipped between JSON tokens by json.loads (space, tab,
newline, carriage return). -/
def jsonWs (c : Char) : Bool := c = ' ' || c = '\t' || c = '\n' || c = '\r'

/-- Consume an expected literal token, returning the remainder. -/
def expectLit (lit s : List Char) : Option (List Char) :=
  if s.take lit.length = lit then some (s.drop lit.length) else none

/-- Value of a decimal digit character, if it is one. -/
def digitVal (c : Char) : Option Nat :=
  if '0' ≤ c ∧ c ≤ '9' then some (c.toNat - 48) else none

/-- Value of a hexadecimal digit character, if it is one. -/
def hexVal (c : Char) : Option Nat :=
  if '0' ≤ c ∧ c ≤ '9' then some (c.toNat - 48)
  else if 'a' ≤ c ∧ c ≤ 'f' then some (c.toNat - 87)
  else if 'A' ≤ c ∧ c ≤ 'F' then some (c.toNat - 55)
  else none

/-- Take the maximal run of leading decimal digits. -/
def takeDigits : List Char → (List Nat × List Char)
  | [] => ([], [])
  | c :: cs =>
    match digitVal c with
    | some d => let (ds, rest) := takeDigits cs; (d :: ds, rest)
    | none => ([], c :: cs)

/-- Natural number denoted by a digit run. -/
def natOfDigits (ds : List Nat) : Nat := ds.foldl (fun acc d => 10 * acc + d) 0

/-- Parse a JSON number (optional minus sign, integer part, optional
fraction, optional exponent) into ℚ, as json.loads reads ints and
floats. -/
def parseNumber (s : List Char) : Option (ℚ × List Char) :=
  let (neg, s1) := match s with
    | '-' :: rest => (true, rest)
    | _ => (false, s)
  let (ids, s2) := takeDigits s1
  if ids = [] then none else
  let intPart : ℚ := (natOfDigits ids : ℚ)
  let (frac, s3) : ℚ × List Char := match s2 with
    | '.' :: rest =>
      let (fds, r) := takeDigits rest
      ((natOfDigits fds : ℚ) / ((10 : ℚ) ^ fds.length), r)
    | _ => (0, s2)
  match s2 with
  | '.' :: rest => if (takeDigits rest).1 = [] then none else
      numberExpTail neg (intPart + frac) s3
  | _ => numberExpTail neg (intPart + frac) s3
where
  /-- Optional exponent suffix, then attach the sign and finish. -/
  numberExpTail (neg : Bool) (mant : ℚ) (s : List Char) : Option (ℚ × List Char) :=
    let signed (v : ℚ) : ℚ := if neg then -v else v
    match s with
    | 'e' :: rest => numberExpDigits neg mant rest
    | 'E' :: rest => numberExpDigits neg mant rest
    | _ => some (signed mant, s)
  /-- Signed exponent digits after the e or E marker. -/
  numberExpDigits (neg : Bool) (mant : ℚ) (s : List Char) : Option (ℚ × List Char) :=
    let (eneg, s1) := match s with
      | '-' :: rest => (true, rest)
      | '+' :: rest => (false, rest)
      | _ => (false, s)
    let (eds, s2) := takeDigits s1
    if eds = [] then none else
    let e := natOfDigits eds
    let v := if eneg then mant / ((10 : ℚ) ^ e) else mant * ((10 : ℚ) ^ e)
    some (if neg then -v else v, s2)

/-- Parse the body of a JSON string after its opening quote, handling the
escape sequences json.loads accepts; raw control characters are
rejected as in strict json.loads. The accumulator holds characters in
reverse. -/
def parseStrBody : Nat → List Char → List Char → Option (String × List Char)
  | 0, _, _ => none
  | _ + 1, acc, [] => (fun _ => none) acc
  | fuel + 1, acc, c :: rest =>
    if c = '"' then some (String.mk acc.reverse, rest)
    else if c = '\\' then
      match rest with
      | [] => none
      | e :: rest2 =>
        if e = '"' then parseStrBody fuel ('"' :: acc) rest2
        else if e = '\\' then parseStrBody fuel ('\\' :: acc) rest2
        else if e = '/' then parseStrBody fuel ('/' :: acc) rest2
        else if e = 'b' then parseStrBody fuel ('\x08' :: acc) rest2
        else if e = 'f' then parseStrBody fuel ('\x0c' :: acc) rest2
        else if e = 'n' then parseStrBody fuel ('\n' :: acc) rest2
        else if e = 'r' then parseStrBody fuel ('\r' :: acc) rest2
        else if e = 't' then parseStrBody fuel ('\t' :: acc) rest2
        else if e = 'u' then
          match rest2 with
          | h1 :: h2 :: h3 :: h4 :: rest3 =>
            match hexVal h1, hexVal h2, hexVal h3, hexVal h4 with
            | some a, some b, some cc, some d =>
              let code := ((a * 16 + b) * 16 + cc) * 16 + d
              parseStrBody fuel (Char.ofNat code :: acc) rest3
            | _, _, _, _ => none
          | _ => none
        else none
    else if c.toNat < 32 then none
    else parseStrBody fuel (c :: acc) rest

mutual
/-- One JSON value by recursive descent with fuel, modelling the grammar
json.loads accepts: leading whitespace, then null, true, false, a
string, an array, an object, or a number. Returns the value and the
unconsumed remainder. -/
def parseValue : Nat → List Char → Option (Json × List Char)
  | 0, _ => none
  | fuel + 1, s =>
    match s.dropWhile jsonWs with
    | [] => none
    | c :: cs =>
      if c = 'n' then (expectLit "ull".toList cs).map (fun r => (Json.null, r))
      else if c = 't' then (expectLit "rue".toList cs).map (fun r => (Json.bool true, r))
      else if c = 'f' then (expectLit "alse".toList cs).map (fun r => (Json.bool false, r))
      else if c = '"' then (parseStrBody (cs.length + 1) [] cs).map (fun p => (Json.str p.1, p.2))
      else if c = '[' then
        match cs.dropWhile jsonWs with
        | ']' :: rest => some (Json.arr .nil, rest)
        | _ => parseElems fuel cs
      else if c = '{' then
        match cs.dropWhile jsonWs with
        | '}' :: rest => some (Json.obj .nil, rest)
        | _ => parseFields fuel .nil cs
      else (parseNumber (c :: cs)).map (fun p => (Json.num p.1, p.2))

/-- Comma-separated array elements up to the closing bracket. -/
def parseElems : Nat → List Char → Option (Json × List Char)
  | 0, _ => none
  | fuel + 1, s =>
    match parseValue fuel s with
    | none => none
    | some (v, r) =>
      match r.dropWhile jsonWs with
      | ',' :: r2 =>
        match parseElems fuel r2 with
        | some (Json.arr tl, r3) => some (Json.arr (.cons v tl), r3)
        | _ => none
      | ']' :: r2 => some (Json.arr (.cons v .nil), r2)
      | _ => none

/-- Comma-separated object members up to the closing brace; members are
installed with `JsonFields.set`, so a repeated key overwrites its value
in place exactly as a Python dict does. -/
def parseFields : Nat → JsonFields → List Char → Option (Json × List Char)
  | 0, _, _ => none
  | fuel + 1, acc, s =>
    match s.dropWhile jsonWs with
    | '"' :: cs =>
      match parseStrBody (cs.length + 1) [] cs with
      | none => none
      | some (key, r) =>
        match r.dropWhile jsonWs with
        | ':' :: r2 =>
          match parseValue fuel r2 with
          | none => none
          | some (v, r3) =>
            let acc2 := acc.set key v
            match r3.dropWhile jsonWs with
            | ',' :: r4 => parseFields fuel acc2 r4
            | '}' :: r4 => some (Json.obj acc2, r4)
            | _ => none
        | _ => none
    | _ => none
end

/-- Models json.loads applied to the cleaned response text: parse one
value and require that only whitespace remains. `none` is the
json.JSONDecodeError case. -/
def parseJson (s : List Char) : Option Json :=
  match parseValue (s.length + 1) s with
  | none => none
  | some (v, rest) => if rest.dropWhile jsonWs = [] then some v else none

/-- The Response Extractor of the specification: the fence-stripping of
lines 90-96 followed by the json.loads parseability requirement. It
returns the cleaned JSON text, or the error json.loads raises on text
that is not valid JSON (the MalformedResponse of the specification). -/
def extract (raw : List Char) : Except PyErr (List Char) :=
  let t := stripFence raw
  match parseJson t with
  | none => .error .malformedResponse
  | some _ => .ok t

/-- Metadata the handler attaches at lines 97-99: the stored-image URL,
the requested meal type, and the formatted current time observed at the
call. -/
structure Meta where
  imagePath : String
  mealType : String
  timestamp : String
  deriving DecidableEq

/-- The Nutrition Result Normalizer: lines 96-99 of analyze_food (same
shape at lines 162-165 of reanalyze_food). The parsed JSON gets the
three metadata keys assigned and is returned as is; no field of the
parsed value is read, checked or recomputed. Item assignment on a
non-dict value raises TypeError (caught by the generic handler of line
103). -/
def normalizeResult (parsed : Json) (m : Meta) : Except PyErr Json :=
  match parsed with
  | .obj kvs =>
    .ok (.obj (((kvs.set "image_path" (.str m.imagePath)).set
      "meal_type" (.str m.mealType)).set "timestamp" (.str m.timestamp)))
  | _ => .error .typeError

/-- The full analyze_food pipeline after the model call (lines 87-101):
a failed external call is the AnalysisFailed case of line 103; otherwise
the raw text is fence-stripped, parsed by json.loads, and the parsed
value gets its metadata attached. The argument `resp` is the outcome of
the external model call, an excluded collaborator. -/
def analyzeResult (resp : Except PyErr (List Char)) (m : Meta) : Except PyErr Json :=
  match resp with
  | .error _ => .error .analysisFailed
  | .ok raw =>
    match parseJson (stripFence raw) with
    | none => .error .malformedResponse
    | some j => normalizeResult j m

/-- The same pipeline as it appears in reanalyze_food lines 154-167 (the
source duplicates the code verbatim). -/
def reanalyzeResult (resp : Except PyErr (List Char)) (m : Meta) : Except PyErr Json :=
  match resp with
  | .error _ => .error .analysisFailed
  | .ok raw =>
    match parseJson (stripFence raw) with
    | none => .error .malformedResponse
    | some j => normalizeResult j m

/-- One per-date record of the in-memory store, created at lines 178-185
with empty meals and zeroed totals. -/
structure DailyRecord where
  meals : List Json
  total_calories : ℚ
  total_protein : ℚ
  total_carbs : ℚ
  total_fat : ℚ
  total_fiber : ℚ
  deriving DecidableEq

/-- The zeroed record of lines 178-185 (also the read-only default of
get_daily_data lines 198-205). -/
def emptyRecord : DailyRecord :=
  { meals := [], total_calories := 0, total_protein := 0, total_carbs := 0
    total_fat := 0, total_fiber := 0 }

/-- The process-wide dict calorie_data (line 23), modelled as an
insertion-ordered association list from date strings to records. -/
abbrev Store := List (String × DailyRecord)

/-- Dict lookup calorie_data.get(date): the first (unique) matching
entry. -/
def storeGet : Store → String → Option DailyRecord
  | [], _ => none
  | (k, v) :: tl, d => if k = d then some v else storeGet tl d

/-- Dict write calorie_data[date] = record: replaces the entry at an
existing date in place, otherwise appends in insertion order. -/
def storeSet : Store → String → DailyRecord → Store
  | [], d, r => [(d, r)]
  | (k, v) :: tl, d, r => if k = d then (d, r) :: tl else (k, v) :: storeSet tl d r

/-- The handler analyze_food as a transition on the store: the store
appears on both sides untouched because the handler never references
calorie_data (lines 43-106 contain no access to it). -/
def analyzeFood (store : Store) (resp : Except PyErr (List Char)) (m : Meta) :
    Except PyErr Json × Store :=
  (analyzeResult resp m, store)

/-- The handler reanalyze_food as a transition on the store: lines
108-170 likewise never reference calorie_data. -/
def reanalyzeFood (store : Store) (resp : Except PyErr (List Char)) (m : Meta) :
    Except PyErr Json × Store :=
  (reanalyzeResult resp m, store)

/-- The success payload returned by save_meal at line 194. -/
def successJson (date : String) : Json :=
  .obj (.cons "success" (.bool true) (.cons "date" (.str date) .nil))

/-- The date save_meal works with at line 175: the date field of the
request body, or the server-side current day when absent. A non-string
date value is modelled as a fault (see `saveMeal`). -/
def resolveDate (data : Json) (today : String) : Option String :=
  match data.get "date" with
  | none => some today
  | some (.str s) => some s
  | some _ => none

/-- The handler save_meal, lines 172-194. The request body `data` is
appended in full to the meals list of its date (the date field of the
body, or `today` when absent, line 175); a zeroed record is created
first when the date is new (lines 177-185); then the five totals are
incremented in source order (lines 188-192). Each increment can raise
TypeError on a non-numeric operand, in which case the mutations already
performed remain in the store (the dict is updated in place) and the
error propagates. A non-dict body faults at line 175 before any
mutation; a date value that is not a string is modelled as a fault with
the store unchanged (the claims only exercise string dates, matching
the data model of the specification). Returns the response of line 194
paired with the store after the call. -/
def saveMeal (store : Store) (data : Json) (today : String) :
    Except PyErr Json × Store :=
  match data with
  | .obj _ =>
    match resolveDate data today with
    | none => (.error .typeError, store)
    | some date =>
      let r0 := (storeGet store date).getD emptyRecord
      let r1 := { r0 with meals := r0.meals ++ [data] }
      match data.getNum "total_calories" with
      | none => (.error .typeError, storeSet store date r1)
      | some vCal =>
      let r2 := { r1 with total_calories := r1.total_calories + vCal }
      match data.getNum "total_protein" with
      | none => (.error .typeError, storeSet store date r2)
      | some vPro =>
      let r3 := { r2 with total_protein := r2.total_protein + vPro }
      match data.getNum "total_carbs" with
      | none => (.error .typeError, storeSet store date r3)
      | some vCar =>
      let r4 := { r3 with total_carbs := r3.total_carbs + vCar }
      match data.getNum "total_fat" with
      | none => (.error .typeError, storeSet store date r4)
      | some vFat =>
      let r5 := { r4 with total_fat := r4.total_fat + vFat }
      match data.getNum "total_fiber" with
      | none => (.error .typeError, storeSet store date r5)
      | some vFib =>
      let r6 := { r5 with total_fiber := r5.total_fiber + vFib }
      (.ok (successJson date), storeSet store date r6)
  | _ => (.error .typeError, store)

/-- The record rendered as the JSON dict the source holds and jsonify
serializes, in the key order of lines 178-185. -/
def recordToJson (r : DailyRecord) : Json :=
  .obj (.cons "meals" (.arr (r.meals.foldr (fun m acc => .cons m acc) .nil))
    (.cons "total_calories" (.num r.total_calories)
      (.cons "total_protein" (.num r.total_protein)
        (.cons "total_carbs" (.num r.total_carbs)
          (.cons "total_fat" (.num r.total_fat)
            (.cons "total_fiber" (.num r.total_fiber) .nil))))))

/-- The handler get_daily_data, lines 196-206: a pure read returning the
record for the date, or the zeroed default when absent; the default is
not stored. -/
def getDailyData (store : Store) (date : String) : Json :=
  recordToJson ((storeGet store date).getD emptyRecord)

/-- Code-point comparison of character lists, the order Python uses to
compare strings. -/
def lexLe : List Char → List Char → Bool
  | [], _ => true
  | _ :: _, [] => false
  | a :: as, b :: bs =>
    if a.toNat < b.toNat then true
    else if b.toNat < a.toNat then false
    else lexLe as bs

/-- Python string comparison a <= b. -/
def strLe (a b : String) : Bool := lexLe a.data b.data

/-- Insert a date into a descending-sorted list, keeping it sorted. -/
def insertDesc (x : String) : List String → List String
  | [] => [x]
  | y :: ys => if strLe y x then x :: y :: ys else y :: insertDesc x ys

/-- Models sorted(keys, reverse=True) of line 210: a sorted permutation
in descending order (unique on the distinct keys of a dict). -/
def sortDesc : List String → List String
  | [] => []
  | x :: xs => insertDesc x (sortDesc xs)

/-- The handler get_all_dates, lines 208-211: the keys of calorie_data
sorted descending. -/
def getAllDates (store : Store) : List String :=
  sortDesc (store.map Prod.fst)

/-- The store operations a client can drive: the save_meal handler with
its request body and the server-side current date, and the two read
handlers. -/
inductive Op where
  | save (data : Json) (today : String)
  | get (date : String)
  | listDates
  deriving DecidableEq

/-- Effect of one operation on the store: save_meal transitions it,
get_daily_data and get_all_dates only read (lines 196-211 contain no
write to calorie_data). -/
def step (store : Store) : Op → Store
  | .save data today => (saveMeal store data today).2
  | .get _ => store
  | .listDates => store

/-- The store reached by a finite sequence of operations from the empty
process-start store (line 23). -/
def run (ops : List Op) : Store := ops.foldl step []

/-- Whether a parsed JSON value is an object (a Python dict). -/
def Json.isObj : Json → Bool
  | .obj _ => true
  | _ => false

/-- Whether a parsed JSON value is an array (a Python list). -/
def Json.isArr : Json → Bool
  | .arr _ => true
  | _ => false

/-- The five running-total field names of the data model, in the order
save_meal reads them (lines 188-192). -/
def totalFields : List String :=
  ["total_calories", "total_protein", "total_carbs", "total_fat", "total_fiber"]

/-- Whether the date field of a request body is absent or a string, the
two shapes under which line 175 yields a usable date key. -/
def dateOk (data : Json) : Bool :=
  match data.get "date" with
  | none => true
  | some (.str _) => true
  | some _ => false

/-- A request body that is a well-typed nutrition payload for save_meal:
a dict, a usable date, and each of the five totals absent or numeric,
so that no increment of lines 188-192 raises TypeError. This is the
shape of a NutritionResult of the data model (which the specification
gives numeric totals). -/
def goodData (data : Json) : Bool :=
  data.isObj && dateOk data && totalFields.all (fun f => (data.getNum f).isSome)

/-- Whether an operation carries a well-typed nutrition payload; read
operations always qualify. -/
def opGood : Op → Bool
  | .save data _ => goodData data
  | _ => true

/-- The running total of a record selected by field name. -/
def recField (r : DailyRecord) : String → ℚ
  | "total_calories" => r.total_calories
  | "total_protein" => r.total_protein
  | "total_carbs" => r.total_carbs
  | "total_fat" => r.total_fat
  | "total_fiber" => r.total_fiber
  | _ => 0

/-- The sum of one total field over a meals list, reading each meal the
way save_meal does (absent field contributes 0). -/
def mealSum (meals : List Json) (f : String) : ℚ :=
  (meals.map (fun m => (m.getNum f).getD 0)).sum

/-- The aggregation invariant of the specification: every running total
equals the sum of that field over the meals of the record. -/
def recInv (r : DailyRecord) : Prop :=
  ∀ f ∈ totalFields, recField r f = mealSum r.meals f

/-- The invariant over the whole store. -/
def storeInv (s : Store) : Prop := ∀ p ∈ s, recInv p.2

/-- The premise of the shape-validation claim: the parsed object is
missing the items field, or its items is not a sequence, or one of the
five totals is missing. -/
def lacksShape (j : Json) : Bool :=
  (match j.get "items" with
   | none => true
   | some v => !(v.isArr))
  || totalFields.any (fun f => (j.get f).isNone)

/-- Field list of a concrete nutrition payload dated 2024-01-01, used to
instantiate theorems on concrete inputs. -/
def sampleK1 : JsonFields :=
  .cons "date" (.str "2024-01-01")
    (.cons "total_calories" (.num 95)
      (.cons "total_protein" (.num 1)
        (.cons "total_carbs" (.num 25)
          (.cons "total_fat" (.num 2)
            (.cons "total_fiber" (.num 4) .nil)))))

/-- The payload built over `sampleK1`. -/
def sampleR1 : Json := .obj sampleK1

/-- Field list of a second payload for the same date. -/
def sampleK2 : JsonFields :=
  .cons "date" (.str "2024-01-01")
    (.cons "total_calories" (.num 200)
      (.cons "total_protein" (.num 10)
        (.cons "total_carbs" (.num 30)
          (.cons "total_fat" (.num 5)
            (.cons "total_fiber" (.num 3) .nil)))))

/-- The payload built over `sampleK2`. -/
def sampleR2 : Json := .obj sampleK2

/-- A minimal payload dated 2024-03-15. -/
def sampleD2 : Json := .obj (.cons "date" (.str "2024-03-15") .nil)

/-- A minimal payload dated 2024-02-10. -/
def sampleD3 : Json := .obj (.cons "date" (.str "2024-02-10") .nil)

/-- A parsed object whose reported total disagrees with the sum over its
items: the one item has 10 calories while total_calories says 999. -/
def mismatchK : JsonFields :=
  .cons "items"
    (.arr (.cons (.obj (.cons "name" (.str "apple") (.cons "calories" (.num 10) .nil))) .nil))
    (.cons "total_calories" (.num 999)
      (.cons "total_protein" (.num 1)
        (.cons "total_carbs" (.num 2)
          (.cons "total_fat" (.num 3)
            (.cons "total_fiber" (.num 4) .nil)))))

/-- Concrete metadata used to instantiate the normalizer. -/
def metaSample : Meta :=
  { imagePath := "http://host/uploads/img1.jpg", mealType := "snack"
    timestamp := "2024-01-01T12:00:00" }

/-- Dropping while over a block of satisfying characters continues
behind the block. -/
theorem dropWhile_append_all {p : Char → Bool} (w r : List Char)
    (hw : ∀ c ∈ w, p c = true) :
    (w ++ r).dropWhile p = r.dropWhile p := by
  induction w with
  | nil => rfl
  | cons a tl ih =>
    simp only [List.cons_append, List.dropWhile_cons, hw a (by simp)]
    exact ih (fun c hc => hw c (by simp [hc]))

/-- Dropping while never lengthens a list. -/
theorem length_dropWhile_le (p : Char → Bool) (l : List Char) :
    (l.dropWhile p).length ≤ l.length := by
  induction l with
  | nil => simp
  | cons a tl ih =>
    by_cases h : p a = true
    · rw [List.dropWhile_cons_of_pos h]; exact Nat.le_succ_of_le ih
    · rw [List.dropWhile_cons_of_neg (by simp [h])]

/-- Left strip ignores a leading all-whitespace block. -/
theorem lstrip_ws_append (w r : List Char) (hw : ∀ c ∈ w, pyWs c = true) :
    lstrip (w ++ r) = lstrip r :=
  dropWhile_append_all w r hw

/-- Left strip keeps a list whose head is not whitespace. -/
theorem lstrip_cons_of_neg {c : Char} {l : List Char} (h : pyWs c = false) :
    lstrip (c :: l) = c :: l := by
  simp [lstrip, List.dropWhile_cons, h]

/-- Right strip ignores a trailing all-whitespace block. -/
theorem rstrip_append_ws (l w : List Char) (hw : ∀ c ∈ w, pyWs c = true) :
    rstrip (l ++ w) = rstrip l := by
  unfold rstrip
  rw [List.reverse_append,
    dropWhile_append_all _ _ (fun c hc => hw c (List.mem_reverse.mp hc))]

/-- Right strip keeps a list whose last character is not whitespace. -/
theorem rstrip_concat_of_neg (l : List Char) {c : Char} (h : pyWs c = false) :
    rstrip (l ++ [c]) = l ++ [c] := by
  unfold rstrip
  rw [List.reverse_append]
  simp only [List.reverse_cons, List.reverse_nil, List.nil_append,
    List.singleton_append]
  rw [List.dropWhile_cons_of_neg (by simp [h])]
  simp

/-- A cons fixed by left strip has a non-whitespace head. -/
theorem head_not_ws {c : Char} {l : List Char} (h : lstrip (c :: l) = c :: l) :
    pyWs c = false := by
  by_contra hc
  rw [Bool.not_eq_false] at hc
  have h2 : List.dropWhile pyWs l = c :: l := by
    simpa [lstrip, List.dropWhile_cons, hc] using h
  have h3 := congrArg List.length h2
  have h4 := length_dropWhile_le pyWs l
  simp at h3
  omega

/-- The opening fence written with its first character exposed. -/
theorem fenceOpen_cons : fenceOpen = '\x60' :: "\x60\x60json".toList := by decide

/-- The closing fence written with its last character exposed. -/
theorem fenceClose_concat : fenceClose = "\x60\x60".toList ++ ['\x60'] := by decide

/-- Fence-stripping recovers the payload of a well-formed markdown
fence: whatever whitespace surrounds the markers and the payload, a
payload that is itself trimmed and nonempty comes back exactly. -/
theorem stripFence_fenced (s w1 w2 w3 w4 : List Char)
    (hne : s ≠ []) (hl : lstrip s = s) (hr : rstrip s = s)
    (hw1 : ∀ c ∈ w1, pyWs c = true) (hw2 : ∀ c ∈ w2, pyWs c = true)
    (hw3 : ∀ c ∈ w3, pyWs c = true) (hw4 : ∀ c ∈ w4, pyWs c = true) :
    stripFence (w1 ++ (fenceOpen ++ (w2 ++ (s ++ (w3 ++ (fenceClose ++ w4)))))) = s := by
  have hbq : pyWs '\x60' = false := by decide
  -- the outer strip peels w1 and w4, leaving the fenced block
  have hA : pyStrip (w1 ++ (fenceOpen ++ (w2 ++ (s ++ (w3 ++ (fenceClose ++ w4)))))) =
      fenceOpen ++ (w2 ++ (s ++ (w3 ++ fenceClose))) := by
    unfold pyStrip
    rw [lstrip_ws_append _ _ hw1]
    have h1 : lstrip (fenceOpen ++ (w2 ++ (s ++ (w3 ++ (fenceClose ++ w4))))) =
        fenceOpen ++ (w2 ++ (s ++ (w3 ++ (fenceClose ++ w4)))) := by
      rw [fenceOpen_cons, List.cons_append]
      exact lstrip_cons_of_neg hbq
    rw [h1]
    have h2 : fenceOpen ++ (w2 ++ (s ++ (w3 ++ (fenceClose ++ w4)))) =
        (fenceOpen ++ (w2 ++ (s ++ (w3 ++ fenceClose)))) ++ w4 := by
      simp [List.append_assoc]
    rw [h2, rstrip_append_ws _ _ hw4]
    have h3 : fenceOpen ++ (w2 ++ (s ++ (w3 ++ fenceClose))) =
        (fenceOpen ++ (w2 ++ (s ++ (w3 ++ "\x60\x60".toList)))) ++ ['\x60'] := by
      rw [fenceClose_concat]
      simp [List.append_assoc]
    rw [h3, rstrip_concat_of_neg _ hbq, ← h3]
  -- the leading marker is found and dropped
  have hB : beginsWith fenceOpen (fenceOpen ++ (w2 ++ (s ++ (w3 ++ fenceClose)))) = true := by
    simp [beginsWith, List.take_left]
  have hdrop : (fenceOpen ++ (w2 ++ (s ++ (w3 ++ fenceClose)))).drop 7 =
      w2 ++ (s ++ (w3 ++ fenceClose)) :=
    List.drop_left' (by decide)
  -- the trailing marker is found and dropped
  have hsplit : w2 ++ (s ++ (w3 ++ fenceClose)) = (w2 ++ (s ++ w3)) ++ fenceClose := by
    simp [List.append_assoc]
  have hlen : (w2 ++ (s ++ (w3 ++ fenceClose))).length - 3 = (w2 ++ (s ++ w3)).length := by
    rw [hsplit, List.length_append]
    have : fenceClose.length = 3 := by decide
    omega
  have hC : finishesWith fenceClose (w2 ++ (s ++ (w3 ++ fenceClose))) = true := by
    simp only [finishesWith]
    have h4 : fenceClose.length = 3 := by decide
    rw [h4, hlen, hsplit, List.drop_left]
    simp
  have htake : (w2 ++ (s ++ (w3 ++ fenceClose))).take
      ((w2 ++ (s ++ (w3 ++ fenceClose))).length - 3) = w2 ++ (s ++ w3) := by
    rw [hlen, hsplit, List.take_left]
  -- the inner strip peels w2 and w3
  have hD : pyStrip (w2 ++ (s ++ w3)) = s := by
    unfold pyStrip
    rw [lstrip_ws_append _ _ hw2]
    obtain ⟨c, s', rfl⟩ : ∃ c s', s = c :: s' := by
      cases s with
      | nil => exact absurd rfl hne
      | cons c s' => exact ⟨c, s', rfl⟩
    have hc : pyWs c = false := head_not_ws hl
    rw [List.cons_append, lstrip_cons_of_neg hc, ← List.cons_append,
      rstrip_append_ws _ _ hw3, hr]
  simp only [stripFence]
  rw [hA]
  rw [hB]
  simp only [if_true]
  rw [hdrop]
  rw [hC]
  simp only [if_true]
  rw [htake, hD]

/-- A successful lookup comes from an entry of the store. -/
theorem storeGet_mem {s : Store} {d : String} {r : DailyRecord}
    (h : storeGet s d = some r) : (d, r) ∈ s := by
  induction s with
  | nil => simp [storeGet] at h
  | cons p tl ih =>
    obtain ⟨k, v⟩ := p
    by_cases hk : k = d
    · subst hk
      simp [storeGet] at h
      simp [h]
    · simp only [storeGet, if_neg hk] at h
      exact List.mem_cons_of_mem _ (ih h)

/-- Every entry after a write is an old entry or the written pair. -/
theorem mem_storeSet {s : Store} {d : String} {r : DailyRecord} {p : String × DailyRecord}
    (h : p ∈ storeSet s d r) : p ∈ s ∨ p = (d, r) := by
  induction s with
  | nil => simp [storeSet] at h; simp [h]
  | cons q tl ih =>
    obtain ⟨k, v⟩ := q
    by_cases hk : k = d
    · subst hk
      simp only [storeSet, if_pos rfl] at h
      rcases List.mem_cons.mp h with h1 | h1
      · right; exact h1
      · left; exact List.mem_cons_of_mem _ h1
    · simp only [storeSet, if_neg hk] at h
      rcases List.mem_cons.mp h with h1 | h1
      · left; simp [h1]
      · rcases ih h1 with h2 | h2
        · left; exact List.mem_cons_of_mem _ h2
        · right; exact h2

/-- Reading back a written date yields the written record. -/
theorem storeGet_storeSet_self (s : Store) (d : String) (r : DailyRecord) :
    storeGet (storeSet s d r) d = some r := by
  induction s with
  | nil => simp [storeSet, storeGet]
  | cons q tl ih =>
    obtain ⟨k, v⟩ := q
    by_cases hk : k = d
    · subst hk; simp [storeSet, storeGet]
    · simp [storeSet, storeGet, if_neg hk, ih]

/-- Reading another date is unaffected by a write. -/
theorem storeGet_storeSet_ne (s : Store) {d e : String} (r : DailyRecord)
    (h : e ≠ d) : storeGet (storeSet s d r) e = storeGet s e := by
  induction s with
  | nil => simp [storeSet, storeGet, if_neg (Ne.symm h)]
  | cons q tl ih =>
    obtain ⟨k, v⟩ := q
    by_cases hk : k = d
    · subst hk
      simp [storeSet, storeGet, if_neg (Ne.symm h)]
    · simp only [storeSet, if_neg hk, storeGet, ih]

/-- A lookup succeeds exactly on the keys present in the store. -/
theorem storeGet_isSome_iff {s : Store} {d : String} :
    (storeGet s d).isSome = true ↔ d ∈ s.map Prod.fst := by
  induction s with
  | nil => simp [storeGet]
  | cons q tl ih =>
    obtain ⟨k, v⟩ := q
    by_cases hk : k = d
    · subst hk; simp [storeGet]
    · have hdk : d ≠ k := Ne.symm hk
      simp [storeGet, if_neg hk, ih, hdk]

/-- Code-point comparison is total. -/
theorem lexLe_total (a b : List Char) : lexLe a b = true ∨ lexLe b a = true := by
  induction a generalizing b with
  | nil => left; rfl
  | cons x xs ih =>
    cases b with
    | nil => right; rfl
    | cons y ys =>
      simp only [lexLe]
      rcases Nat.lt_trichotomy x.toNat y.toNat with h | h | h
      · left; simp [h]
      · simp [h, Nat.lt_irrefl]
        exact ih ys
      · right; simp [h, Nat.not_lt.mpr (Nat.le_of_lt h)]

/-- String comparison is total. -/
theorem strLe_total (a b : String) : strLe a b = true ∨ strLe b a = true :=
  lexLe_total a.data b.data

/-- Code-point comparison is transitive. -/
theorem lexLe_trans : ∀ (a b c : List Char),
    lexLe a b = true → lexLe b c = true → lexLe a c = true
  | [], _, _, _, _ => rfl
  | _ :: _, [], _, h1, _ => absurd h1 (by simp [lexLe])
  | _ :: _, _ :: _, [], _, h2 => absurd h2 (by simp [lexLe])
  | x :: xs, y :: ys, z :: zs, h1, h2 => by
    simp only [lexLe] at h1 h2 ⊢
    by_cases hxy : x.toNat < y.toNat
    · by_cases hyz : y.toNat < z.toNat
      · simp [Nat.lt_trans hxy hyz]
      · by_cases hzy : z.toNat < y.toNat
        · rw [if_neg hyz, if_pos hzy] at h2
          exact absurd h2 (by simp)
        · have heq : y.toNat = z.toNat := by omega
          simp [heq ▸ hxy]
    · by_cases hyx : y.toNat < x.toNat
      · rw [if_neg hxy, if_pos hyx] at h1
        exact absurd h1 (by simp)
      · have heq : x.toNat = y.toNat := by omega
        rw [if_neg hxy, if_neg hyx] at h1
        by_cases hyz : y.toNat < z.toNat
        · simp [heq ▸ hyz]
        · by_cases hzy : z.toNat < y.toNat
          · rw [if_neg hyz, if_pos hzy] at h2
            exact absurd h2 (by simp)
          · have heq2 : y.toNat = z.toNat := by omega
            rw [if_neg hyz, if_neg hzy] at h2
            have hxz : ¬ x.toNat < z.toNat := by omega
            have hzx : ¬ z.toNat < x.toNat := by omega
            rw [if_neg hxz, if_neg hzx]
            exact lexLe_trans xs ys zs h1 h2

/-- String comparison is transitive. -/
theorem strLe_trans {a b c : String} (h1 : strLe a b = true)
    (h2 : strLe b c = true) : strLe a c = true :=
  lexLe_trans a.data b.data c.data h1 h2

/-- Membership in a descending insertion. -/
theorem mem_insertDesc {x d : String} {l : List String} :
    d ∈ insertDesc x l ↔ d = x ∨ d ∈ l := by
  induction l with
  | nil => simp [insertDesc]
  | cons y ys ih =>
    simp only [insertDesc]
    by_cases h : strLe y x = true
    · simp [h]
    · simp [h, ih]
      tauto

/-- Sorting preserves membership. -/
theorem mem_sortDesc {d : String} {l : List String} :
    d ∈ sortDesc l ↔ d ∈ l := by
  induction l with
  | nil => simp [sortDesc]
  | cons y ys ih => simp [sortDesc, mem_insertDesc, ih]

/-- Inserting into a descending-sorted list keeps it sorted. -/
theorem pairwise_insertDesc {x : String} {l : List String}
    (h : l.Pairwise (fun a b => strLe b a = true)) :
    (insertDesc x l).Pairwise (fun a b => strLe b a = true) := by
  induction l with
  | nil => simp [insertDesc]
  | cons y ys ih =>
    rcases List.pairwise_cons.mp h with ⟨hy, hys⟩
    simp only [insertDesc]
    by_cases hc : strLe y x = true
    · rw [if_pos hc]
      refine List.pairwise_cons.mpr ⟨?_, h⟩
      intro b hb
      rcases List.mem_cons.mp hb with rfl | hb
      · exact hc
      · exact strLe_trans (hy b hb) hc
    · rw [if_neg hc]
      refine List.pairwise_cons.mpr ⟨?_, ih hys⟩
      intro b hb
      rcases mem_insertDesc.mp hb with rfl | hb
      · rcases strLe_total b y with h1 | h1
        · exact h1
        · exact absurd h1 hc
      · exact hy b hb

/-- The result of sorting is descending-sorted. -/
theorem pairwise_sortDesc (l : List String) :
    (sortDesc l).Pairwise (fun a b => strLe b a = true) := by
  induction l with
  | nil => simp [sortDesc]
  | cons y ys ih => exact pairwise_insertDesc ih

/-- A usable date field resolves to some date key. -/
theorem resolveDate_of_dateOk {data : Json} (today : String)
    (h : dateOk data = true) : ∃ d, resolveDate data today = some d := by
  unfold dateOk at h
  unfold resolveDate
  cases hm : data.get "date" with
  | none => exact ⟨today, rfl⟩
  | some v =>
    rw [hm] at h
    cases v with
    | str s => exact ⟨s, rfl⟩
    | null => simp at h
    | bool b => simp at h
    | num q => simp at h
    | arr a => simp at h
    | obj o => simp at h

/-- Evaluation of save_meal on a well-typed body: the date resolves, no
increment faults, the body is appended and the five sums advance. -/
theorem saveMeal_eval (store : Store) (data : Json) (today : String)
    (kvs : JsonFields) (d : String) (vCal vPro vCar vFat vFib : ℚ)
    (hobj : data = .obj kvs)
    (hdate : resolveDate data today = some d)
    (h1 : data.getNum "total_calories" = some vCal)
    (h2 : data.getNum "total_protein" = some vPro)
    (h3 : data.getNum "total_carbs" = some vCar)
    (h4 : data.getNum "total_fat" = some vFat)
    (h5 : data.getNum "total_fiber" = some vFib) :
    saveMeal store data today =
      (.ok (successJson d),
        storeSet store d
          { meals := ((storeGet store d).getD emptyRecord).meals ++ [data],
            total_calories := ((storeGet store d).getD emptyRecord).total_calories + vCal,
            total_protein := ((storeGet store d).getD emptyRecord).total_protein + vPro,
            total_carbs := ((storeGet store d).getD emptyRecord).total_carbs + vCar,
            total_fat := ((storeGet store d).getD emptyRecord).total_fat + vFat,
            total_fiber := ((storeGet store d).getD emptyRecord).total_fiber + vFib }) := by
  subst hobj
  simp only [saveMeal, hdate, h1, h2, h3, h4, h5]

/-- The empty record satisfies the aggregation invariant. -/
theorem recInv_empty : recInv emptyRecord := by
  intro f hf
  simp [totalFields] at hf
  rcases hf with rfl | rfl | rfl | rfl | rfl <;> decide

/-- Appending one meal adds its reading to the sum. -/
theorem mealSum_append_single (l : List Json) (m : Json) (f : String) :
    mealSum (l ++ [m]) f = mealSum l f + (m.getNum f).getD 0 := by
  simp [mealSum]

/-- A value that is an object carries a field list. -/
theorem isObj_exists {data : Json} (h : data.isObj = true) :
    ∃ kvs, data = Json.obj kvs := by
  cases data <;> first
  | exact ⟨_, rfl⟩
  | simp [Json.isObj] at h

/-- A save with a well-typed body keeps the aggregation invariant. -/
theorem saveMeal_preserves_inv {store : Store} {data : Json} {today : String}
    (hgood : goodData data = true) (hinv : storeInv store) :
    storeInv (saveMeal store data today).2 := by
  have h0 := hgood
  simp only [goodData, Bool.and_eq_true, List.all_eq_true] at h0
  obtain ⟨⟨hobjB, hdateOk⟩, hall⟩ := h0
  obtain ⟨kvs, rfl⟩ := isObj_exists hobjB
  obtain ⟨d, hdate⟩ := resolveDate_of_dateOk today hdateOk
  obtain ⟨vCal, h1⟩ := Option.isSome_iff_exists.mp
    (hall "total_calories" (by simp [totalFields]))
  obtain ⟨vPro, h2⟩ := Option.isSome_iff_exists.mp
    (hall "total_protein" (by simp [totalFields]))
  obtain ⟨vCar, h3⟩ := Option.isSome_iff_exists.mp
    (hall "total_carbs" (by simp [totalFields]))
  obtain ⟨vFat, h4⟩ := Option.isSome_iff_exists.mp
    (hall "total_fat" (by simp [totalFields]))
  obtain ⟨vFib, h5⟩ := Option.isSome_iff_exists.mp
    (hall "total_fiber" (by simp [totalFields]))
  rw [saveMeal_eval store (Json.obj kvs) today kvs d vCal vPro vCar vFat vFib rfl
    hdate h1 h2 h3 h4 h5]
  intro p hp
  rcases mem_storeSet hp with hmem | rfl
  · exact hinv p hmem
  · have hr0inv : recInv ((storeGet store d).getD emptyRecord) := by
      cases hg : storeGet store d with
      | none => simpa [hg] using recInv_empty
      | some r =>
        have hmr := hinv (d, r) (storeGet_mem hg)
        simpa [hg] using hmr
    intro f hf
    simp only [totalFields, List.mem_cons, List.mem_singleton, List.not_mem_nil,
      or_false] at hf
    rcases hf with rfl | rfl | rfl | rfl | rfl <;>
      simp only [recField] <;>
      rw [mealSum_append_single] <;>
      [rw [h1]; rw [h2]; rw [h3]; rw [h4]; rw [h5]] <;>
      simp <;>
      [have hh := hr0inv "total_calories" (by simp [totalFields]);
       have hh := hr0inv "total_protein" (by simp [totalFields]);
       have hh := hr0inv "total_carbs" (by simp [totalFields]);
       have hh := hr0inv "total_fat" (by simp [totalFields]);
       have hh := hr0inv "total_fiber" (by simp [totalFields])] <;>
      simp only [recField] at hh <;>
      rw [hh]

/-- Assigning one key leaves lookups of other keys unchanged. -/
theorem fieldsGet_set_ne : ∀ (kvs : JsonFields) (key : String) (v : Json)
    (f : String), f ≠ key → (kvs.set key v).get f = kvs.get f
  | .nil, key, v, f, h => by
    simp [JsonFields.set, JsonFields.get, if_neg (Ne.symm h)]
  | .cons k w tl, key, v, f, h => by
    by_cases hk : k = key
    · subst hk
      simp [JsonFields.set, JsonFields.get, if_neg (Ne.symm h)]
    · simp [JsonFields.set, JsonFields.get, if_neg hk,
        fieldsGet_set_ne tl key v f h]

/-- The reanalyze pipeline is the analyze pipeline: the source duplicates
the code verbatim. -/
theorem reanalyzeResult_eq (resp : Except PyErr (List Char)) (m : Meta) :
    reanalyzeResult resp m = analyzeResult resp m := rfl

/-- C3. The claim states that normalize fails with ShapeMismatch on an
otherwise-valid object missing items (or with a non-sequence items) or
missing a total field. The code performs no such validation: on the
empty object, which lacks every required field, it succeeds and returns
a result. -/
theorem claim_C3_counterexample :
    lacksShape (Json.obj .nil) = true
    ∧ normalizeResult (Json.obj .nil) metaSample ≠ Except.error PyErr.shapeMismatch
    ∧ ∃ out, normalizeResult (Json.obj .nil) metaSample = Except.ok out :=
  ⟨by decide, by simp [normalizeResult], ⟨_, rfl⟩⟩

/-- C3 (amended). For every parsed-JSON object that is missing the items
field (or whose items is not a sequence) or missing any total field,
normalize succeeds anyway — it performs no shape validation and never
fails with ShapeMismatch; the object is returned with its metadata
attached. -/
theorem claim_C3 (kvs : JsonFields) (m : Meta)
    (_hshape : lacksShape (Json.obj kvs) = true) :
    normalizeResult (Json.obj kvs) m ≠ Except.error PyErr.shapeMismatch
    ∧ ∃ out, normalizeResult (Json.obj kvs) m = Except.ok out :=
  ⟨by simp [normalizeResult], ⟨_, rfl⟩⟩

/-- Witness for C3 at the empty object. -/
theorem claim_C3_witness :
    lacksShape (Json.obj .nil) = true
    ∧ (normalizeResult (Json.obj .nil) metaSample ≠ Except.error PyErr.shapeMismatch
       ∧ ∃ out, normalizeResult (Json.obj .nil) metaSample = Except.ok out) :=
  ⟨by decide, claim_C3 .nil metaSample (by decide)⟩

/-- C4. For every valid JSON value j, wrapping a text that parses to j
(its serialization) in the markdown fence, with arbitrary whitespace
around the markers and the payload, gives a raw text on which extract
succeeds, and the extracted output parses to a value deep-equal to j. -/
theorem claim_C4 (j : Json) (s w1 w2 w3 w4 : List Char)
    (hparse : parseJson s = some j)
    (hl : lstrip s = s) (hr : rstrip s = s) (hne : s ≠ [])
    (hw1 : ∀ c ∈ w1, pyWs c = true) (hw2 : ∀ c ∈ w2, pyWs c = true)
    (hw3 : ∀ c ∈ w3, pyWs c = true) (hw4 : ∀ c ∈ w4, pyWs c = true) :
    extract (w1 ++ (fenceOpen ++ (w2 ++ (s ++ (w3 ++ (fenceClose ++ w4)))))) =
      Except.ok s
    ∧ parseJson s = some j := by
  have hsf := stripFence_fenced s w1 w2 w3 w4 hne hl hr hw1 hw2 hw3 hw4
  exact ⟨by simp only [extract, hsf, hparse], hparse⟩

/-- Witness for C4 on a one-field object with whitespace on every side
of the fence markers. -/
theorem claim_C4_witness :
    extract (" ".toList ++ (fenceOpen ++ ("\n".toList ++ ("\x7b\"a\": 1\x7d".toList ++
        ("\n ".toList ++ (fenceClose ++ "\n".toList)))))) =
      Except.ok "\x7b\"a\": 1\x7d".toList
    ∧ parseJson "\x7b\"a\": 1\x7d".toList = some (Json.obj (.cons "a" (.num 1) .nil)) :=
  claim_C4 (Json.obj (.cons "a" (.num 1) .nil)) "\x7b\"a\": 1\x7d".toList
    " ".toList "\n".toList "\n ".toList "\n".toList
    (by decide) (by decide) (by decide) (by decide)
    (by decide) (by decide) (by decide) (by decide)

/-- C5. For every raw text whose fence-stripped content is not parseable
as JSON, extract fails with MalformedResponse rather than coercing the
input into a result. -/
theorem claim_C5 (raw : List Char) (h : parseJson (stripFence raw) = none) :
    extract raw = Except.error PyErr.malformedResponse := by
  simp only [extract, h]

/-- Witness for C5 on prose that is not JSON. -/
theorem claim_C5_witness :
    parseJson (stripFence "Sorry, I cannot analyze this image.".toList) = none
    ∧ extract "Sorry, I cannot analyze this image.".toList =
        Except.error PyErr.malformedResponse :=
  ⟨by decide, claim_C5 _ (by decide)⟩

/-- C8. The normalizer stores the five totals and the items list exactly
as received and never recomputes them: every one of those fields of the
output object is the very field of the input object, even when the
totals disagree with the sum over items. -/
theorem claim_C8 (kvs : JsonFields) (m : Meta) (f : String)
    (hf : f ∈ "items" :: totalFields) :
    ∃ out, normalizeResult (Json.obj kvs) m = Except.ok (Json.obj out)
      ∧ out.get f = kvs.get f := by
  simp only [totalFields, List.mem_cons, List.mem_singleton, List.not_mem_nil,
    or_false] at hf
  have hne1 : f ≠ "image_path" := by
    rcases hf with rfl | rfl | rfl | rfl | rfl | rfl <;> decide
  have hne2 : f ≠ "meal_type" := by
    rcases hf with rfl | rfl | rfl | rfl | rfl | rfl <;> decide
  have hne3 : f ≠ "timestamp" := by
    rcases hf with rfl | rfl | rfl | rfl | rfl | rfl <;> decide
  refine ⟨_, rfl, ?_⟩
  rw [fieldsGet_set_ne _ _ _ _ hne3, fieldsGet_set_ne _ _ _ _ hne2,
    fieldsGet_set_ne _ _ _ _ hne1]

/-- Witness for C8 on an object whose reported total (999) disagrees
with the sum over its items (10): the 999 passes through untouched. -/
theorem claim_C8_witness :
    "total_calories" ∈ "items" :: totalFields
    ∧ ∃ out, normalizeResult (Json.obj mismatchK) metaSample = Except.ok (Json.obj out)
        ∧ out.get "total_calories" = mismatchK.get "total_calories" :=
  ⟨by decide, claim_C8 mismatchK metaSample "total_calories" (by decide)⟩

/-- C9. Whenever an analysis pipeline invocation fails — with
AnalysisFailed, MalformedResponse or a TypeError from metadata
attachment — both the analyze and the reanalyze handlers return exactly
that error with the store unchanged: no record is created or modified
and no partial result is emitted. -/
theorem claim_C9 (store : Store) (resp : Except PyErr (List Char)) (m : Meta)
    (e : PyErr) (ha : analyzeResult resp m = Except.error e) :
    analyzeFood store resp m = (Except.error e, store)
    ∧ reanalyzeFood store resp m = (Except.error e, store) :=
  ⟨by simp [analyzeFood, ha], by simp [reanalyzeFood, reanalyzeResult_eq, ha]⟩

/-- Witness for C9 on a reply that is not JSON. -/
theorem claim_C9_witness :
    analyzeResult (Except.ok "hello".toList) metaSample =
      Except.error PyErr.malformedResponse
    ∧ (analyzeFood [] (Except.ok "hello".toList) metaSample =
        (Except.error PyErr.malformedResponse, [])
       ∧ reanalyzeFood [] (Except.ok "hello".toList) metaSample =
        (Except.error PyErr.malformedResponse, [])) :=
  ⟨by decide, claim_C9 [] _ metaSample _ (by decide)⟩

/-- C1. The claim states that each save call returns the updated record
for the date. The handler instead returns the success payload of line
194; on a concrete first save the response differs from the saved
record. -/
theorem claim_C1_counterexample :
    (saveMeal [] sampleR1 "2024-01-01").1 = Except.ok (successJson "2024-01-01")
    ∧ (saveMeal [] sampleR1 "2024-01-01").1 ≠
        Except.ok (getDailyData (saveMeal [] sampleR1 "2024-01-01").2 "2024-01-01") := by
  decide

/-- C1 (amended). Saving two nutrition results r1 and r2 under the same
date, starting from a store with no record for it, stores a record
whose meals are exactly the two results in order and whose five totals
are the sums of the corresponding fields of r1 and r2; each save call
returns the success payload (success plus the date), not the updated
record. -/
theorem claim_C1 (store : Store) (d : String) (k1 k2 : JsonFields)
    (c1 p1 b1 f1 i1 c2 p2 b2 f2 i2 : ℚ)
    (hnone : storeGet store d = none)
    (hd1 : (Json.obj k1).get "date" = some (.str d))
    (hd2 : (Json.obj k2).get "date" = some (.str d))
    (hc1 : (Json.obj k1).get "total_calories" = some (.num c1))
    (hp1 : (Json.obj k1).get "total_protein" = some (.num p1))
    (hb1 : (Json.obj k1).get "total_carbs" = some (.num b1))
    (hf1 : (Json.obj k1).get "total_fat" = some (.num f1))
    (hi1 : (Json.obj k1).get "total_fiber" = some (.num i1))
    (hc2 : (Json.obj k2).get "total_calories" = some (.num c2))
    (hp2 : (Json.obj k2).get "total_protein" = some (.num p2))
    (hb2 : (Json.obj k2).get "total_carbs" = some (.num b2))
    (hf2 : (Json.obj k2).get "total_fat" = some (.num f2))
    (hi2 : (Json.obj k2).get "total_fiber" = some (.num i2)) :
    (saveMeal store (Json.obj k1) d).1 = Except.ok (successJson d)
    ∧ (saveMeal (saveMeal store (Json.obj k1) d).2 (Json.obj k2) d).1 =
        Except.ok (successJson d)
    ∧ storeGet (saveMeal (saveMeal store (Json.obj k1) d).2 (Json.obj k2) d).2 d =
        some { meals := [Json.obj k1, Json.obj k2],
               total_calories := c1 + c2, total_protein := p1 + p2,
               total_carbs := b1 + b2, total_fat := f1 + f2,
               total_fiber := i1 + i2 } := by
  have e1 := saveMeal_eval store (Json.obj k1) d k1 d c1 p1 b1 f1 i1 rfl
    (by simp [resolveDate, hd1]) (by simp [Json.getNum, hc1, pyNum])
    (by simp [Json.getNum, hp1, pyNum]) (by simp [Json.getNum, hb1, pyNum])
    (by simp [Json.getNum, hf1, pyNum]) (by simp [Json.getNum, hi1, pyNum])
  rw [hnone] at e1
  simp only [Option.getD_none, emptyRecord, List.nil_append, zero_add] at e1
  have hget1 : storeGet (saveMeal store (Json.obj k1) d).2 d =
      some { meals := [Json.obj k1], total_calories := c1, total_protein := p1,
             total_carbs := b1, total_fat := f1, total_fiber := i1 } := by
    rw [e1]
    exact storeGet_storeSet_self _ _ _
  have e2 := saveMeal_eval (saveMeal store (Json.obj k1) d).2 (Json.obj k2) d k2 d
    c2 p2 b2 f2 i2 rfl
    (by simp [resolveDate, hd2]) (by simp [Json.getNum, hc2, pyNum])
    (by simp [Json.getNum, hp2, pyNum]) (by simp [Json.getNum, hb2, pyNum])
    (by simp [Json.getNum, hf2, pyNum]) (by simp [Json.getNum, hi2, pyNum])
  rw [hget1] at e2
  simp only [Option.getD_some] at e2
  refine ⟨by rw [e1], by rw [e2], ?_⟩
  rw [e2]
  exact storeGet_storeSet_self _ _ _

/-- Witness for C1 on the two sample payloads over the empty store. -/
theorem claim_C1_witness :
    (saveMeal [] sampleR1 "2024-01-01").1 = Except.ok (successJson "2024-01-01")
    ∧ (saveMeal (saveMeal [] sampleR1 "2024-01-01").2 sampleR2 "2024-01-01").1 =
        Except.ok (successJson "2024-01-01")
    ∧ storeGet (saveMeal (saveMeal [] sampleR1 "2024-01-01").2 sampleR2
          "2024-01-01").2 "2024-01-01" =
        some { meals := [sampleR1, sampleR2],
               total_calories := 95 + 200, total_protein := 1 + 10,
               total_carbs := 25 + 30, total_fat := 2 + 5,
               total_fiber := 4 + 3 } :=
  claim_C1 [] "2024-01-01" sampleK1 sampleK2 95 1 25 2 4 200 10 30 5 3
    (by decide) (by decide) (by decide) (by decide) (by decide) (by decide)
    (by decide) (by decide) (by decide) (by decide) (by decide) (by decide)
    (by decide)

/-- C2. Along any finite sequence of save, get and listDates operations
from the empty store, with each save carrying a well-typed nutrition
payload, every record of the store keeps each of its five totals equal
to the sum of that field over its meals. -/
theorem claim_C2 (ops : List Op) (h : ∀ op ∈ ops, opGood op = true) :
    storeInv (run ops) := by
  have main : ∀ (l : List Op) (s : Store), (∀ op ∈ l, opGood op = true) →
      storeInv s → storeInv (List.foldl step s l) := by
    intro l
    induction l with
    | nil => intro s _ hs; simpa using hs
    | cons op tl ih =>
      intro s hl hs
      simp only [List.foldl_cons]
      refine ih (step s op) (fun o ho => hl o (List.mem_cons_of_mem _ ho)) ?_
      cases op with
      | save data today =>
        exact saveMeal_preserves_inv
          (by simpa [opGood] using hl _ (List.mem_cons_self _ _)) hs
      | get dd => exact hs
      | listDates => exact hs
  exact main ops [] h (fun p hp => absurd hp (List.not_mem_nil p))

/-- Witness for C2 on a concrete operation sequence. -/
theorem claim_C2_witness :
    (∀ op ∈ [Op.save sampleR1 "x", Op.get "2024-01-01", Op.listDates,
      Op.save sampleR2 "x"], opGood op = true)
    ∧ storeInv (run [Op.save sampleR1 "x", Op.get "2024-01-01", Op.listDates,
      Op.save sampleR2 "x"]) :=
  ⟨by decide, claim_C2 _ (by decide)⟩

/-- C6. Reading a date that was never saved returns the zeroed
empty-meals record, leaves the store unchanged, and a later listDates
does not include the date. -/
theorem claim_C6 (store : Store) (d : String) (h : storeGet store d = none) :
    getDailyData store d = recordToJson emptyRecord
    ∧ step store (Op.get d) = store
    ∧ d ∉ getAllDates store := by
  refine ⟨by simp [getDailyData, h], rfl, fun hmem => ?_⟩
  simp only [getAllDates] at hmem
  have h1 : d ∈ store.map Prod.fst := mem_sortDesc.mp hmem
  have h2 : (storeGet store d).isSome = true := storeGet_isSome_iff.mpr h1
  rw [h] at h2
  simp at h2

/-- Witness for C6 on a never-saved date against a one-record store. -/
theorem claim_C6_witness :
    storeGet (saveMeal [] sampleR1 "x").2 "1999-12-31" = none
    ∧ (getDailyData (saveMeal [] sampleR1 "x").2 "1999-12-31" =
        recordToJson emptyRecord
       ∧ step (saveMeal [] sampleR1 "x").2 (Op.get "1999-12-31") =
          (saveMeal [] sampleR1 "x").2
       ∧ "1999-12-31" ∉ getAllDates (saveMeal [] sampleR1 "x").2) :=
  ⟨by decide, claim_C6 _ _ (by decide)⟩

/-- C7. listDates returns exactly the dates present in the store, in
descending code-point (hence chronological) order; in particular after
saving records dated 2024-01-01, 2024-03-15 and 2024-02-10 it returns
those dates sorted descending. -/
theorem claim_C7 (store : Store) :
    (getAllDates store).Pairwise (fun a b => strLe b a = true)
    ∧ (∀ d, d ∈ getAllDates store ↔ (storeGet store d).isSome = true)
    ∧ getAllDates (run [Op.save sampleR1 "x", Op.save sampleD2 "x",
        Op.save sampleD3 "x"]) = ["2024-03-15", "2024-02-10", "2024-01-01"] := by
  refine ⟨pairwise_sortDesc _, fun d => ?_, by decide⟩
  simp only [getAllDates]
  rw [mem_sortDesc]
  exact storeGet_isSome_iff.symm

/-- C10. A save whose body is missing one of the five total fields still
succeeds: the body is appended in full to the meals of its date and the
running sum of the missing field is left unchanged (the absent field
contributes the default 0 of line 188-192). -/
theorem claim_C10 (store : Store) (kvs : JsonFields) (today d f : String)
    (hf : f ∈ totalFields)
    (hdate : resolveDate (Json.obj kvs) today = some d)
    (hgood : goodData (Json.obj kvs) = true)
    (habs : (Json.obj kvs).get f = none) :
    (saveMeal store (Json.obj kvs) today).1 = Except.ok (successJson d)
    ∧ ∃ r, storeGet (saveMeal store (Json.obj kvs) today).2 d = some r
        ∧ r.meals = ((storeGet store d).getD emptyRecord).meals ++ [Json.obj kvs]
        ∧ recField r f = recField ((storeGet store d).getD emptyRecord) f := by
  have h0 := hgood
  simp only [goodData, Bool.and_eq_true, List.all_eq_true] at h0
  obtain ⟨⟨hobjB, hdateOk⟩, hall⟩ := h0
  obtain ⟨vCal, h1⟩ := Option.isSome_iff_exists.mp
    (hall "total_calories" (by simp [totalFields]))
  obtain ⟨vPro, h2⟩ := Option.isSome_iff_exists.mp
    (hall "total_protein" (by simp [totalFields]))
  obtain ⟨vCar, h3⟩ := Option.isSome_iff_exists.mp
    (hall "total_carbs" (by simp [totalFields]))
  obtain ⟨vFat, h4⟩ := Option.isSome_iff_exists.mp
    (hall "total_fat" (by simp [totalFields]))
  obtain ⟨vFib, h5⟩ := Option.isSome_iff_exists.mp
    (hall "total_fiber" (by simp [totalFields]))
  have hz : (Json.obj kvs).getNum f = some 0 := by simp [Json.getNum, habs]
  have e := saveMeal_eval store (Json.obj kvs) today kvs d vCal vPro vCar vFat vFib
    rfl hdate h1 h2 h3 h4 h5
  refine ⟨by rw [e], ?_⟩
  refine ⟨{ meals := ((storeGet store d).getD emptyRecord).meals ++ [Json.obj kvs],
            total_calories := ((storeGet store d).getD emptyRecord).total_calories + vCal,
            total_protein := ((storeGet store d).getD emptyRecord).total_protein + vPro,
            total_carbs := ((storeGet store d).getD emptyRecord).total_carbs + vCar,
            total_fat := ((storeGet store d).getD emptyRecord).total_fat + vFat,
            total_fiber := ((storeGet store d).getD emptyRecord).total_fiber + vFib },
          ?_, rfl, ?_⟩
  · rw [e]
    exact storeGet_storeSet_self _ _ _
  · simp only [totalFields, List.mem_cons, List.mem_singleton, List.not_mem_nil,
      or_false] at hf
    rcases hf with rfl | rfl | rfl | rfl | rfl
    · rw [hz] at h1
      simp only [recField]
      rw [← Option.some.inj h1]
      simp
    · rw [hz] at h2
      simp only [recField]
      rw [← Option.some.inj h2]
      simp
    · rw [hz] at h3
      simp only [recField]
      rw [← Option.some.inj h3]
      simp
    · rw [hz] at h4
      simp only [recField]
      rw [← Option.some.inj h4]
      simp
    · rw [hz] at h5
      simp only [recField]
      rw [← Option.some.inj h5]
      simp

/-- Witness for C10 on a body missing total_protein. -/
theorem claim_C10_witness :
    "total_protein" ∈ totalFields
    ∧ resolveDate (Json.obj (.cons "date" (.str "2024-04-01")
        (.cons "total_calories" (.num 50) .nil))) "x" = some "2024-04-01"
    ∧ goodData (Json.obj (.cons "date" (.str "2024-04-01")
        (.cons "total_calories" (.num 50) .nil))) = true
    ∧ (Json.obj (.cons "date" (.str "2024-04-01")
        (.cons "total_calories" (.num 50) .nil))).get "total_protein" = none
    ∧ ((saveMeal [] (Json.obj (.cons "date" (.str "2024-04-01")
          (.cons "total_calories" (.num 50) .nil))) "x").1 =
            Except.ok (successJson "2024-04-01")
       ∧ ∃ r, storeGet (saveMeal [] (Json.obj (.cons "date" (.str "2024-04-01")
            (.cons "total_calories" (.num 50) .nil))) "x").2 "2024-04-01" = some r
          ∧ r.meals = ((storeGet [] "2024-04-01").getD emptyRecord).meals ++
              [Json.obj (.cons "date" (.str "2024-04-01")
                (.cons "total_calories" (.num 50) .nil))]
          ∧ recField r "total_protein" =
              recField ((storeGet [] "2024-04-01").getD emptyRecord) "total_protein") :=
  ⟨by decide, by decide, by decide, by decide,
    claim_C10 [] (.cons "date" (.str "2024-04-01")
      (.cons "total_calories" (.num 50) .nil)) "x" "2024-04-01" "total_protein"
      (by decide) (by decide) (by decide) (by decide)⟩
